import Mathlib

/-!
Verification of the block-device introspection and secure-erase layer
(`curtin/block/__init__.py`): device naming, sysfs topology reading,
lsblk pairs-output parsing, multipath detection, and the offset-based
wipe engine.

The Python code is shallowly embedded.  Files are byte lists
(`List Nat`); the filesystem/sysfs surface that the topology reader
queries is an explicit `Fs` record; external tools (lsblk, blkid,
scsi_id) and their process execution are parameters of the functions
that invoke them.  Machine-level concerns do not arise: all arithmetic
in the source is unbounded Python integers, mirrored by `Nat`/`Int`.
-/

/-- Python truthiness of an optional string (`if x:`): `None` and the
empty string are falsy. -/
def pyTruthyOpt : Option String → Bool
  | none => false
  | some s => s ≠ ""

/-- Characters stripped by Python `str.rstrip()` / `int()` with no
arguments (the whitespace that actually occurs in sysfs attribute
files). -/
def pyIsSpace (c : Char) : Bool :=
  c == ' ' || c == '\n' || c == '\t' || c == '\r'

/-- Python `str.rstrip()`. -/
def pyRstrip (s : String) : String :=
  String.mk ((s.data.reverse.dropWhile pyIsSpace).reverse)

/-- Value of a decimal digit string. -/
def digitsToNat (l : List Char) : Nat :=
  l.foldl (fun n c => n * 10 + (c.toNat - ('0').toNat)) 0

/-- Python `int(s)` on a decimal string: strips surrounding whitespace,
accepts an optional leading minus sign, raises `ValueError` otherwise. -/
def pyInt (s : String) : Except String Int :=
  let cs := ((s.data.dropWhile pyIsSpace).reverse.dropWhile pyIsSpace).reverse
  match cs with
  | [] => .error ("ValueError: invalid literal for int: " ++ s)
  | c :: rest =>
    if c == '-' then
      if rest ≠ [] ∧ rest.all Char.isDigit then .ok (-(digitsToNat rest : Int))
      else .error ("ValueError: invalid literal for int: " ++ s)
    else
      if cs.all Char.isDigit then .ok ((digitsToNat cs : Int))
      else .error ("ValueError: invalid literal for int: " ++ s)

/-- Python `s.replace(a, b)` for single-character `a`, `b`: it is a
character-wise substitution. -/
def pyReplaceChar (s : String) (a b : Char) : String :=
  String.mk (s.data.map (fun c => if c == a then b else c))

/-- Python `s.startswith(p)`. -/
def strStartsWith (s p : String) : Bool :=
  p.data.isPrefixOf s.data

/-- Python `s.endswith(p)`. -/
def strEndsWith (s p : String) : Bool :=
  p.data.reverse.isPrefixOf s.data.reverse

/-- Splitting a character list on a non-empty separator, scanning left
to right; `cur` is the reversed current segment and the fuel dominates
the input length. -/
def splitOnCharsFuel (sep : List Char) : Nat → List Char → List Char → List (List Char)
  | 0, l, cur => [cur.reverse ++ l]
  | fuel + 1, l, cur =>
    match l with
    | [] => [cur.reverse]
    | c :: rest =>
      if sep.isPrefixOf (c :: rest) then
        cur.reverse :: splitOnCharsFuel sep fuel ((c :: rest).drop sep.length) []
      else
        splitOnCharsFuel sep fuel rest (c :: cur)

/-- Python `s.split(sep)` for a non-empty separator (Python rejects an
empty one). -/
def pySplitOn (s sep : String) : List String :=
  if sep = "" then [s]
  else (splitOnCharsFuel sep.data (s.data.length + 1) s.data []).map String.mk

/-- Python `str.splitlines()` (for `\n`-separated text): like splitting
on `\n` except that a trailing newline does not produce a final empty
line. -/
def pySplitlines (s : String) : List String :=
  let l := pySplitOn s "\n"
  if l.getLast? = some "" then l.dropLast else l

/-- Python `tok.split(sep, 1)` when it must yield exactly two parts:
`none` when `sep` does not occur, otherwise the text before the first
occurrence and everything after it. -/
def splitOnce (s sep : String) : Option (String × String) :=
  match pySplitOn s sep with
  | [] => none
  | [_] => none
  | x :: rest => some (x, String.intercalate sep rest)

/-- Python `os.path.basename` for POSIX paths: the part after the last
slash. -/
def pyBasename (p : String) : String :=
  (pySplitOn p "/").getLastD ""

/-- Python `os.path.dirname` for POSIX paths: everything before the
last slash, with the degenerate root case preserved. -/
def pyDirname (p : String) : String :=
  let comps := pySplitOn p "/"
  if comps.length ≤ 1 then ""
  else
    let j := String.intercalate "/" comps.dropLast
    if j = "" then (if strStartsWith p "/" then "/" else "") else j

/-- Python `os.path.join(a, b)` for POSIX paths. -/
def pyJoin (a b : String) : String :=
  if strStartsWith b "/" then b
  else if a = "" then b
  else if strEndsWith a "/" then a ++ b
  else a ++ "/" ++ b

/-- Component processing of Python `posixpath.normpath`: `acc` is the
reversed list of retained components, `isAbs` says whether the path had
leading slashes. -/
def normpathComps (isAbs : Bool) : List String → List String → List String
  | acc, [] => acc.reverse
  | acc, c :: rest =>
    if c = "" ∨ c = "." then normpathComps isAbs acc rest
    else if c ≠ ".." ∨ (¬ isAbs ∧ acc = []) ∨ (acc.headD "" = "..") then
      normpathComps isAbs (c :: acc) rest
    else
      match acc with
      | _ :: tl => normpathComps isAbs tl rest
      | [] => normpathComps isAbs acc rest

/-- Python `os.path.normpath` for POSIX paths. -/
def normpath (p : String) : String :=
  if p = "" then "." else
  let slashes : Nat :=
    if strStartsWith p "/" then
      (if strStartsWith p "//" ∧ ¬ (strStartsWith p "///" = true) then 2 else 1)
    else 0
  let body := String.intercalate "/" (normpathComps (slashes ≠ 0) [] (pySplitOn p "/"))
  let res := String.join (List.replicate slashes "/") ++ body
  if res = "" then "." else res

/-- `get_dev_name_entry(devname)` from the source: short name (text
after the last `/dev/` occurrence) and its canonical `/dev/` path. -/
def get_dev_name_entry (devname : String) : String × String :=
  let bname := (pySplitOn devname "/dev/").getLastD ""
  (bname, "/dev/" ++ bname)

/-- `dev_short(devname)` from the source. -/
def dev_short (devname : String) : String :=
  if devname.data.contains '/' then pyBasename devname else devname

/-- `dev_path(devname)` from the source. -/
def dev_path (devname : String) : String :=
  if strStartsWith devname "/dev/" then devname else "/dev/" ++ devname

/-- Python `dict` update `d[k] = v` on an association list: replace in
place if the key is present, else append. -/
def dictInsert {β : Type} (d : List (String × β)) (k : String) (v : β) :
    List (String × β) :=
  if d.any (fun p => p.1 == k) then
    d.map (fun p => if p.1 == k then (k, v) else p)
  else d ++ [(k, v)]

/-- Overwrite of `buf` into `file` at byte position `pos`: the model of
a `seek(pos)` followed by `write(buf)` on an opened file. -/
def writeAt (file : List Nat) (pos : Nat) (buf : List Nat) : List Nat :=
  file.take pos ++ buf ++ file.drop (pos + buf.length)

theorem writeAt_length (file : List Nat) (pos : Nat) (buf : List Nat)
    (h : pos + buf.length ≤ file.length) :
    (writeAt file pos buf).length = file.length := by
  simp only [writeAt, List.length_append, List.length_take, List.length_drop]
  omega

theorem writeAt_nil (file : List Nat) (pos : Nat) :
    writeAt file pos [] = file := by
  simp [writeAt]

theorem writeAt_getElem? (file : List Nat) (pos : Nat) (buf : List Nat)
    (h : pos + buf.length ≤ file.length) (i : Nat) :
    (writeAt file pos buf)[i]? =
      if i < pos then file[i]?
      else if i < pos + buf.length then buf[i - pos]?
      else file[i]? := by
  have hlt : (file.take pos).length = pos := by
    simp [List.length_take]; omega
  unfold writeAt
  rw [List.append_assoc, List.getElem?_append, List.getElem?_append, hlt]
  rw [List.getElem?_take, List.getElem?_drop]
  have harith : pos + buf.length + (i - pos - buf.length) = max i (pos + buf.length) := by
    omega
  rw [harith]
  split_ifs <;> try omega
  all_goals
    first
    | rfl
    | (have hmax : max i (pos + buf.length) = i := by omega
       rw [hmax])

theorem writeAt_writeAt (file : List Nat) (pos : Nat) (a b : List Nat)
    (h : pos + a.length + b.length ≤ file.length) :
    writeAt (writeAt file pos a) (pos + a.length) b = writeAt file pos (a ++ b) := by
  have hlen : (writeAt file pos a).length = file.length :=
    writeAt_length _ _ _ (by omega)
  apply List.ext_getElem?
  intro i
  rw [writeAt_getElem? (writeAt file pos a) (pos + a.length) b (by omega)]
  rw [writeAt_getElem? file pos (a ++ b) (by simp; omega)]
  rw [writeAt_getElem? file pos a (by omega)]
  rw [List.getElem?_append]
  simp only [List.length_append]
  split_ifs <;> try omega
  all_goals
    first
    | rfl
    | (have hidx : i - (pos + a.length) = i - pos - a.length := by omega
       rw [hidx])

/-- The filesystem surface the sysfs topology reader queries: symlink
resolution (`os.path.realpath`), regular-file contents (`os.path.isfile`
plus the file-loading collaborator), and directory listings
(`os.listdir`); `os.path.exists` holds for files and directories. -/
structure Fs where
  realpath : String → String
  fileContents : String → Option String
  dirListing : String → Option (List String)

/-- Python `os.path.exists`. -/
def pyExists (fs : Fs) (p : String) : Bool :=
  (fs.fileContents p).isSome || (fs.dirListing p).isSome

/-- Python `os.path.isfile`. -/
def pyIsFile (fs : Fs) (p : String) : Bool :=
  (fs.fileContents p).isSome

/-- Modelled from the spec: the `util.load_file` collaborator
("read-whole-file-as-text", spec section 6) is not under `src/`; it
returns the file text and fails on a missing file. -/
def load_file (fs : Fs) (p : String) : Except String String :=
  match fs.fileContents p with
  | some c => .ok c
  | none => .error ("IOError: could not load file " ++ p)

/-- Python `os.listdir`: fails on a missing directory. -/
def pyListdir (fs : Fs) (p : String) : Except String (List String) :=
  match fs.dirListing p with
  | some l => .ok l
  | none => .error ("OSError: cannot list directory " ++ p)

/-- `get_blockdev_for_partition(devpath)` from the source: realpath the
device, locate its `/sys/class/block` node (with the legacy `cciss!`
fallback), return `(rpath, none)` for a whole disk; for a partition,
read the partition number, then resolve the parent disk through the
real sysfs path's directory, its `dev` (major:minor) file and the
`/dev/block/<maj:min>` symlink. -/
def get_blockdev_for_partition (fs : Fs) (devpath : String) :
    Except String (String × Option String) := do
  let rpath := fs.realpath devpath
  let bname := pyBasename rpath
  let syspath := "/sys/class/block/" ++ bname
  let syspath ←
    if pyExists fs syspath then pure syspath
    else
      let syspath2 := "/sys/class/block/cciss!" ++ bname
      if pyExists fs syspath2 then pure syspath2
      else throw ("ValueError: " ++ devpath ++ " had no syspath (" ++ syspath ++ ")")
  let ptpath := pyJoin syspath "partition"
  if ¬ (pyExists fs ptpath = true) then
    pure (rpath, none)
  else do
    let c ← load_file fs ptpath
    let ptnum := pyRstrip c
    let rsyspath := fs.realpath syspath
    let disksyspath := pyDirname rsyspath
    let c2 ← load_file fs (pyJoin disksyspath "dev")
    let diskmajmin := pyRstrip c2
    let diskdevpath := fs.realpath ("/dev/block/" ++ diskmajmin)
    pure (diskdevpath, some ptnum)

/-- `sys_block_path(devname, add, strict)` from the source: builds
`/sys/class/block[/<parent>]/<devname>[/<add>]`, inserting the parent
component when `devname` is a partition, and under `strict` fails when
the path does not exist. -/
def sys_block_path (fs : Fs) (devname : String) (add : Option String)
    (strict : Bool) : Except String String := do
  let toks := ["/sys/class/block"]
  let pp ← get_blockdev_for_partition fs devname
  let toks := if pyTruthyOpt pp.2 then toks ++ [dev_short pp.1] else toks
  let toks := toks ++ [dev_short devname]
  let toks := match add with
    | some a => toks ++ [a]
    | none => toks
  let path := String.intercalate "/" toks
  if strict ∧ ¬ (pyExists fs path = true) then
    throw ("OSError: devname " ++ devname ++ " did not have existing syspath " ++ path)
  else
    pure (normpath path)

/-- `sysfs_partition_data(blockdev, sysfs_path)` from the source.  The
source computes `block_size` from the parent's sysfs path and then
immediately recomputes it from `sysfs_path` itself, overwriting the
first value; both reads are embedded here in source order.  A call with
`blockdev=None` reaches `os.path.realpath(None)` in the source, which
raises `TypeError`. -/
def sysfs_partition_data (fs : Fs) (blockdev : Option String)
    (sysfs_path : Option String) : Except String (List (String × Int × Int × Int)) := do
  if blockdev = none ∧ sysfs_path = none then
    throw "ValueError: Blockdev and sysfs_path cannot both be None"
  let spath ← match blockdev with
    | some b =>
      if b ≠ "" then sys_block_path fs b none true
      else pure (sysfs_path.getD "")
    | none => pure (sysfs_path.getD "")
  match blockdev with
  | none => throw "TypeError: realpath expects a string, not None"
  | some b => do
    let pp ← get_blockdev_for_partition fs b
    let sysfs_parent ←
      if pyTruthyOpt pp.2 then sys_block_path fs pp.1 none true
      else pure spath
    let c1 ← load_file fs (pyJoin sysfs_parent "queue/logical_block_size")
    let _block_size_parent ← pyInt c1
    let c2 ← load_file fs (pyJoin spath "queue/logical_block_size")
    let block_size ← pyInt c2
    let unit := block_size
    let entries ← pyListdir fs spath
    entries.foldlM (fun ptdata d => do
      let partd := pyJoin spath d
      let pn? ← match fs.fileContents (pyJoin partd "partition") with
        | some c => do
          let n ← pyInt c
          pure (some n)
        | none => pure none
      let st? ← match fs.fileContents (pyJoin partd "start") with
        | some c => do
          let n ← pyInt c
          pure (some n)
        | none => pure none
      let sz? ← match fs.fileContents (pyJoin partd "size") with
        | some c => do
          let n ← pyInt c
          pure (some n)
        | none => pure none
      match pn? with
      | none => pure ptdata
      | some pn =>
        match st?, sz? with
        | some st, some sz => pure (ptdata ++ [(d, pn, st * unit, sz * unit)])
        | _, _ => throw "KeyError: start or size"
      ) []

/-- Symlink resolution of a small concrete sysfs layout: a virtio disk
`vda` carrying one partition `vda1`. -/
def vdaRealpath (s : String) : String :=
  if s = "/sys/class/block/vda1" then "/sys/devices/pci0/block/vda/vda1"
  else if s = "/dev/block/253:0" then "/dev/vda"
  else s

/-- Regular files of the concrete sysfs layout: the `queue` attribute
directory exists only under the disk node `vda`, as the source's own
comment states ("queue is only on the parent device"). -/
def vdaFiles (s : String) : Option String :=
  if s = "/sys/class/block/vda/queue/logical_block_size" then some "512\n"
  else if s = "/sys/class/block/vda1/partition" then some "1\n"
  else if s = "/sys/class/block/vda/vda1/partition" then some "1\n"
  else if s = "/sys/class/block/vda/vda1/start" then some "2048\n"
  else if s = "/sys/class/block/vda/vda1/size" then some "20480\n"
  else if s = "/sys/devices/pci0/block/vda/dev" then some "253:0\n"
  else none

/-- Directories of the concrete sysfs layout. -/
def vdaDirs (s : String) : Option (List String) :=
  if s = "/sys/class/block/vda" then some ["vda1", "queue"]
  else if s = "/sys/class/block/vda1" then some []
  else if s = "/sys/class/block/vda/vda1" then some []
  else if s = "/sys/class/block/vda/queue" then some []
  else none

/-- The concrete sysfs layout assembled. -/
def vdaFs : Fs := ⟨vdaRealpath, vdaFiles, vdaDirs⟩

/-- One line of lsblk `--pairs` output parsed by the loop body of
`_lsblock_pairs_to_dict`: tokens are split at the first `=` (a token
with no `=` raises `ValueError`), collected into the row dict, the row
is keyed by its `KNAME` value (`KeyError` when absent) and the derived
`device_path` field is added.  The shell-style tokenizer (`shlex.split`,
a stdlib collaborator) is a parameter. -/
def parse_pairs_line (split : String → List String) (line : String) :
    Except String (String × List (String × String)) := do
  let toks := split line
  let cur ← toks.foldlM (fun cur tok =>
    match splitOnce tok "=" with
    | none => throw "ValueError: need more than 1 value to unpack"
    | some kv => pure (dictInsert cur kv.1 kv.2)) ([] : List (String × String))
  match List.lookup "KNAME" cur with
  | none => throw "KeyError: KNAME"
  | some kname =>
    let cur := dictInsert cur "device_path" (get_dev_name_entry kname).2
    pure (kname, cur)

/-- `_lsblock_pairs_to_dict(lines)` from the source: parse every line
and build the table keyed by `KNAME`. -/
def _lsblock_pairs_to_dict (split : String → List String) (lines : String) :
    Except String (List (String × List (String × String))) :=
  (pySplitlines lines).foldlM (fun ret line => do
    let kr ← parse_pairs_line split line
    pure (dictInsert ret kr.1 kr.2)) []

/-- The whitespace tokenizer: agrees with `shlex.split` on lines with
no quoting, which is what concrete instances below use. -/
def spaceSplit (s : String) : List String :=
  (pySplitOn s " ").filter (fun t => t ≠ "")

/-- The fixed lsblk column list from `_lsblock`. -/
def lsblock_keys : List String :=
  ["ALIGNMENT", "DISC-ALN", "DISC-GRAN", "DISC-MAX", "DISC-ZERO",
   "FSTYPE", "GROUP", "KNAME", "LABEL", "LOG-SEC", "MAJ:MIN",
   "MIN-IO", "MODE", "MODEL", "MOUNTPOINT", "NAME", "OPT-IO", "OWNER",
   "PHY-SEC", "RM", "RO", "ROTA", "RQ-SIZE", "SCHED", "SIZE", "STATE",
   "TYPE", "UUID"]

/-- The fixed command prefix of `_lsblock` (the `SCHED` column is
removed before building `--output=`). -/
def lsblock_basecmd : List String :=
  ["lsblk", "--noheadings", "--bytes", "--pairs",
   "--output=" ++ String.intercalate "," (lsblock_keys.erase "SCHED")]

/-- The argument vector `_lsblock` hands to process execution: the base
command followed by the caller's arguments with every `!` replaced by
`/` (`args = [x.replace('!', '/') for x in args]`). -/
def lsblock_invocation (args : List String) : List String :=
  lsblock_basecmd ++ args.map (fun x => pyReplaceChar x '!' '/')

/-- `_lsblock(args)` from the source: invoke the tool (a parameter
`tool` standing for `util.subp` capture of stdout), replace `!` by `/`
in the output, and parse. -/
def _lsblock (split : String → List String) (tool : List String → String)
    (args : List String) : Except String (List (String × List (String × String))) :=
  _lsblock_pairs_to_dict split (pyReplaceChar (tool (lsblock_invocation args)) '!' '/')

/-- `itertools.combinations(l, 2)` in its enumeration order. -/
def combinations2 {α : Type} : List α → List (α × α)
  | [] => []
  | x :: xs => xs.map (fun y => (x, y)) ++ combinations2 xs

/-- The `devuuids` comprehension of `get_multipath_wwids`: the devices
reported by the metadata-probing tool that carry a `UUID` key. -/
def devuuidsOf (devinfo : List (String × Option String)) : List (String × String) :=
  devinfo.filterMap (fun p => p.2.map (fun u => (p.1, u)))

/-- The per-candidate filter of `get_multipath_wwids`: a candidate
contributes its WWID only when the lookup succeeded (`none` models the
caught `ProcessExecutionError`) with a non-empty string (`if wwid:`). -/
def wwidSet (wwid : String → Option String) (d : String) : Finset String :=
  match wwid d with
  | none => ∅
  | some w => if w = "" then ∅ else {w}

/-- `get_multipath_wwids()` from the source.  `devinfo` is the blkid
result (device path and optional UUID), `parent` is the first component
of `get_blockdev_for_partition` (partition-to-parent-disk resolution,
embedded separately above; a total function here because a resolution
failure aborts the whole call in the source), and `wwid` is the
`get_scsi_wwid` collaborator.  For every unordered pair of `devuuids`
with equal UUIDs the source adds `get_blockdev_for_partition(dev1)[0]`
— the parent of the first element only — to the candidate set. -/
def get_multipath_wwids (devinfo : List (String × Option String))
    (parent : String → String) (wwid : String → Option String) : Finset String :=
  let devuuids := devuuidsOf devinfo
  let multipath_devices : Finset String :=
    (((combinations2 devuuids).filter (fun q => q.1.2 == q.2.2)).map
      (fun q => parent q.1.1)).toFinset
  multipath_devices.biUnion (wwidSet wwid)

/-- Modelled from the spec: the claim's reading of section 4.5 — "for
each such pair, resolve BOTH sides to their parent disk and collect the
parent disk paths into a candidate set" — stated as a second definition
for comparison with the source's behaviour. -/
def get_multipath_wwids_claim (devinfo : List (String × Option String))
    (parent : String → String) (wwid : String → Option String) : Finset String :=
  let devuuids := devuuidsOf devinfo
  let multipath_devices : Finset String :=
    (((combinations2 devuuids).filter (fun q => q.1.2 == q.2.2)).flatMap
      (fun q => [parent q.1.1, parent q.2.1])).toFinset
  multipath_devices.biUnion (wwidSet wwid)

/-- `detect_multipath(target_mountpoint)` from the source, after the
rescan side effect: `binfo` is the uncached blkid table restricted to
the only key the loop reads (`UUID`, absent or empty modelled by
`Option`/`""`), `target_devs` the result of `get_devices_for_mp`.  The
loop returns `True` on the first target entry with a truthy UUID that
some other device path also carries, else `False`. -/
def detect_multipath (binfo : List (String × Option String))
    (target_devs : List String) : Bool :=
  binfo.any (fun e =>
    target_devs.contains e.1 &&
      (match e.2 with
       | none => false
       | some u =>
         (u ≠ "" : Bool) && binfo.any (fun o => o.2 == some u && o.1 ≠ e.1)))

/-- The short-read message of `wipe_file`. -/
def shortReadMsg (got expected after : Nat) : String :=
  "short read on reader got " ++ toString got ++ " expected " ++
    toString expected ++ " after " ++ toString after

/-- One iteration of the `wipe_file` loop at write position `pos`, with
`pbuf` the buffer the reader returned: raise on the short-read
condition, otherwise write the buffer — sliced to `size - pos` and
stopping when this is the final block (`pos + buflen >= size`).
Returns the file, the new position and the done flag.  The loop
maintains `pos ≤ size` so Python's `pbuf[0:size-pos]` is the
truncation `take (size - pos)`. -/
def wipeStep (buflen size pos : Nat) (pbuf file : List Nat) :
    Except String (List Nat × Nat × Bool) :=
  if pbuf.length ≠ buflen ∧ pbuf.length + pos < size then
    .error (shortReadMsg pbuf.length buflen pos)
  else if size ≤ pos + buflen then
    .ok (writeAt file pos (pbuf.take (size - pos)),
         pos + (pbuf.take (size - pos)).length, true)
  else
    .ok (writeAt file pos pbuf, pos + pbuf.length, false)

/-- The `while True` loop of `wipe_file`, with the reader modelled as
the sequence of buffers it returns (`reader k` is the k-th call's
result) and explicit fuel: the source diverges only for `buflen = 0`,
where the fuel runs out instead. -/
def wipeLoop (reader : Nat → List Nat) (buflen size : Nat) :
    Nat → Nat → Nat → List Nat → Except String (List Nat)
  | 0, _, _, _ => .error "wipe loop did not terminate"
  | fuel + 1, k, pos, file =>
    match wipeStep buflen size pos (reader k) file with
    | .error e => .error e
    | .ok fpd => if fpd.2.2 then .ok fpd.1 else wipeLoop reader buflen size fuel (k + 1) fpd.2.1 fpd.1

/-- `wipe_file(path, reader, buflen)` from the source: the size is
measured by seeking to the end, then the file is rewritten from
position 0. -/
def wipe_file (reader : Nat → List Nat) (buflen : Nat) (file : List Nat) :
    Except String (List Nat) :=
  wipeLoop reader buflen file.length (file.length + 1) 0 0 file

/-- The default zero reader of `wipe_file` (`readfunc` returning the
constant zero buffer). -/
def zeroReader (buflen : Nat) : Nat → List Nat :=
  fun _ => List.replicate buflen 0

/-- The strict-mode invalid-offset message of `zero_file_at_offsets`
(`m_badoff`; only the strict variant is ever raised). -/
def m_badoff (size : Nat) (offset : Int) : String :=
  "(size=" ++ toString size ++ "): invalid offset " ++ toString offset ++ "."

/-- The strict-mode boundary-overrun message of `zero_file_at_offsets`
(`m_short`; only the strict variant is ever raised). -/
def m_short (size tot : Nat) (offset : Int) : String :=
  "(size=" ++ toString size ++ "): " ++ toString tot ++ " bytes from " ++
    toString offset ++ " > size."

/-- The absolute write position for one requested offset: negative
offsets are measured from the end. -/
def resolvePos (size : Nat) (offset : Int) : Int :=
  if offset < 0 then (size : Int) + offset else offset

/-- The inner `for i in range(count)` loop of `zero_file_at_offsets`:
each pass rereads the position and writes a full zero block, or its
prefix `buf[0:size-pos]` when the block would cross end-of-file.  The
position never exceeds `size` (entry guarantees `pos ≤ size`). -/
def zeroInner (buflen size : Nat) : Nat → Nat → List Nat → List Nat × Nat
  | 0, pos, file => (file, pos)
  | count + 1, pos, file =>
    if size < pos + buflen then
      let w := (List.replicate buflen (0 : Nat)).take (size - pos)
      zeroInner buflen size count (pos + w.length) (writeAt file pos w)
    else
      zeroInner buflen size count (pos + buflen) (writeAt file pos (List.replicate buflen 0))

/-- The per-offset body of `zero_file_at_offsets`: resolve the
position; if it falls outside `[0, size]` raise in strict mode and skip
otherwise; then, when the requested `buflen * count` bytes would cross
end-of-file, raise in strict mode (log otherwise) and finally run the
write loop. -/
def zeroOneOffset (buflen count : Nat) (strict : Bool) (size : Nat)
    (file : List Nat) (offset : Int) : Except String (List Nat) :=
  let tot := buflen * count
  let pos := resolvePos size offset
  if (size : Int) < pos ∨ pos < 0 then
    if strict then .error (m_badoff size offset) else .ok file
  else
    if (size : Int) < pos + (tot : Int) ∧ strict then .error (m_short size tot offset)
    else .ok (zeroInner buflen size count pos.toNat file).1

/-- `zero_file_at_offsets(path, offsets, buflen, count, strict)` from
the source: the size is measured once by seeking to the end, then each
offset is processed in order. -/
def zero_file_at_offsets (file : List Nat) (offsets : List Int)
    (buflen count : Nat) (strict : Bool) : Except String (List Nat) :=
  offsets.foldlM (zeroOneOffset buflen count strict file.length) file

/-- `quick_zero(path, partitions)` from the source: a 1 MiB window
(`buflen=1024, count=1024`) at offset 0 and at `-(1 MiB)`; when
`partitions` is set and the path is a block device, two more windows
per partition of the sysfs geometry query; `path` validity is checked
first (`is_block`/`is_file` are the `is_block_device`/`os.path.isfile`
environment answers), and the work is delegated to
`zero_file_at_offsets` with its default `strict=False`. -/
def quick_zero (fs : Fs) (path : String) (is_block is_file : Bool)
    (partitions : Bool) (file : List Nat) : Except String (List Nat) :=
  let buflen : Nat := 1024
  let count : Nat := 1024
  let zero_size : Nat := buflen * count
  let offsets : List Int := [0, -(zero_size : Int)]
  if ¬ (is_block || is_file) = true then
    .error "ValueError: not an existing file or block device"
  else if partitions && is_block then
    match sysfs_partition_data fs (some path) none with
    | .error e => .error e
    | .ok ptdata =>
      let offsets := offsets ++ ptdata.flatMap
        (fun q => [q.2.2.1, q.2.2.1 + q.2.2.2 - (zero_size : Int)])
      zero_file_at_offsets file offsets buflen count false
  else
    zero_file_at_offsets file offsets buflen count false

theorem mem_combinations2 {α : Type} (l : List α) (p : α × α) :
    p ∈ combinations2 l ↔ ∃ i j : Nat, i < j ∧ l[i]? = some p.1 ∧ l[j]? = some p.2 := by
  induction l with
  | nil => simp [combinations2]
  | cons x xs ih =>
    simp only [combinations2, List.mem_append, List.mem_map, ih]
    constructor
    · rintro (⟨y, hy, hp⟩ | ⟨i, j, hij, hi, hj⟩)
      · rcases List.mem_iff_getElem?.1 hy with ⟨j, hj⟩
        exact ⟨0, j + 1, Nat.succ_pos j, by simp [← hp], by simpa [← hp] using hj⟩
      · exact ⟨i + 1, j + 1, by omega, by simpa using hi, by simpa using hj⟩
    · rintro ⟨i, j, hij, hi, hj⟩
      cases i with
      | zero =>
        cases j with
        | zero => omega
        | succ j =>
          left
          refine ⟨p.2, List.mem_iff_getElem?.2 ⟨j, by simpa using hj⟩, ?_⟩
          simp at hi
          rw [hi]
      | succ i =>
        cases j with
        | zero => omega
        | succ j =>
          right
          exact ⟨i, j, by omega, by simpa using hi, by simpa using hj⟩

theorem mem_wwidSet (wwid : String → Option String) (d w : String) :
    w ∈ wwidSet wwid d ↔ wwid d = some w ∧ w ≠ "" := by
  unfold wwidSet
  rcases h : wwid d with _ | w2
  · simp
  · by_cases h2 : w2 = "" <;> simp [h2] <;> aesop

/-- Claim C2 (amended): a WWID is returned iff some ordered pair
`i < j` of UUID-carrying devices shares a UUID and the WWID lookup on
the parent disk of the FIRST device of the pair (only — the source adds
`get_blockdev_for_partition(dev1)[0]` alone, not both parents) returns
it as a non-empty string; failed or empty lookups contribute nothing. -/
theorem get_multipath_wwids_first_of_pair (devinfo : List (String × Option String))
    (parent : String → String) (wwid : String → Option String) (w : String) :
    w ∈ get_multipath_wwids devinfo parent wwid ↔
      ∃ i j : Nat, i < j ∧ ∃ d1 u d2,
        (devuuidsOf devinfo)[i]? = some (d1, u) ∧
        (devuuidsOf devinfo)[j]? = some (d2, u) ∧
        wwid (parent d1) = some w ∧ w ≠ "" := by
  unfold get_multipath_wwids
  rw [Finset.mem_biUnion]
  constructor
  · rintro ⟨d, hd, hw⟩
    rw [List.mem_toFinset, List.mem_map] at hd
    rcases hd with ⟨q, hq, hparent⟩
    rw [List.mem_filter] at hq
    rcases hq with ⟨hqmem, hquuid⟩
    rw [mem_combinations2] at hqmem
    rcases hqmem with ⟨i, j, hij, hi, hj⟩
    rw [mem_wwidSet] at hw
    have huu : q.1.2 = q.2.2 := by simpa using hquuid
    refine ⟨i, j, hij, q.1.1, q.1.2, q.2.1, by simpa using hi, ?_,
      by rw [hparent]; exact hw.1, hw.2⟩
    simpa [huu] using hj
  · rintro ⟨i, j, hij, d1, u, d2, hi, hj, hww, hne⟩
    refine ⟨parent d1, ?_, (mem_wwidSet wwid (parent d1) w).2 ⟨hww, hne⟩⟩
    rw [List.mem_toFinset, List.mem_map]
    refine ⟨((d1, u), (d2, u)), ?_, rfl⟩
    rw [List.mem_filter, mem_combinations2]
    exact ⟨⟨i, j, hij, hi, hj⟩, by simp⟩

/-- Two devices whose filesystems share UUID `U` but which live on
distinct parent disks with distinct WWIDs. -/
def cexDevinfo : List (String × Option String) :=
  [("/dev/sda1", some "U"), ("/dev/sdb1", some "U")]

/-- Parent-disk resolution for the two-device layout. -/
def cexParent : String → String :=
  fun d => if d = "/dev/sda1" then "/dev/sda" else "/dev/sdb"

/-- WWID lookup for the two-device layout: both lookups succeed with
distinct non-empty WWIDs. -/
def cexWwid : String → Option String :=
  fun d => if d = "/dev/sda" then some "W1" else some "W2"

/-- Claim C2, counterexample: on the colliding pair, the claimed
candidate set contains both parents (so `W2` would be returned), but
the source adds only the first device's parent and `W2` is absent. -/
theorem get_multipath_wwids_pair_counterexample :
    ("W2" ∈ get_multipath_wwids_claim cexDevinfo cexParent cexWwid) ∧
    ("W2" ∉ get_multipath_wwids cexDevinfo cexParent cexWwid) := by
  decide

/-- Claim C6: `detect_multipath` returns true iff some metadata entry
for a target device carries a (truthy) UUID that a metadata entry for a
different device path also carries; target entries without a UUID are
skipped, and with no shared UUID the result is false. -/
theorem detect_multipath_iff (binfo : List (String × Option String))
    (target_devs : List String) :
    detect_multipath binfo target_devs = true ↔
      ∃ dev u, (dev, some u) ∈ binfo ∧ dev ∈ target_devs ∧ u ≠ "" ∧
        ∃ dev2, (dev2, some u) ∈ binfo ∧ dev2 ≠ dev := by
  unfold detect_multipath
  rw [List.any_eq_true]
  constructor
  · rintro ⟨e, he, hcond⟩
    rcases e with ⟨dev, u?⟩
    rcases u? with _ | u
    · simp at hcond
    · simp only [Bool.and_eq_true, decide_eq_true_eq, List.any_eq_true] at hcond
      rcases hcond with ⟨htgt, htruthy, o, ho, houuid⟩
      rcases o with ⟨dev2, u2?⟩
      refine ⟨dev, u, he, List.mem_of_elem_eq_true htgt, htruthy, dev2, ?_, ?_⟩
      · have : u2? = some u := by simpa using houuid.1
        rw [← this]; exact ho
      · simpa using houuid.2
  · rintro ⟨dev, u, hmem, htgt, hne, dev2, hmem2, hne2⟩
    refine ⟨(dev, some u), hmem, ?_⟩
    simp only [Bool.and_eq_true, decide_eq_true_eq, List.any_eq_true]
    exact ⟨List.elem_eq_true_of_mem htgt, hne, ⟨dev2, some u⟩, hmem2, by simp [hne2]⟩

/-- Claim C1 (code bug exhibit): on the concrete virtio layout, the
geometry query on the whole disk `/dev/vda` succeeds and converts the
sysfs sector counts (start 2048, size 20480) with the disk's logical
sector size 512; but on the partition `/dev/vda1` the source's second
`block_size` assignment re-reads `queue/logical_block_size` from the
partition's own sysfs path — which real sysfs does not provide, as the
source's own comment states — so the call fails with a missing-file
error instead of using the parent's sector size as the claim and the
first (immediately overwritten) assignment intend. -/
theorem sysfs_partition_data_partition_queue_bug :
    sysfs_partition_data vdaFs (some "/dev/vda") none =
      .ok [("vda1", 1, 2048 * 512, 20480 * 512)] ∧
    sysfs_partition_data vdaFs (some "/dev/vda1") none =
      .error "IOError: could not load file /sys/class/block/vda/vda1/queue/logical_block_size" := by
  constructor
  · rfl
  · rfl

/-- Claim C10: `quick_zero` on a path that is neither a block device
nor an existing regular file fails with the invalid-argument error, for
both values of `partitions`, before any write or geometry query
happens. -/
theorem quick_zero_invalid_path_error (fs : Fs) (path : String)
    (is_block is_file partitions : Bool) (file : List Nat)
    (h : (is_block || is_file) = false) :
    quick_zero fs path is_block is_file partitions file =
      .error "ValueError: not an existing file or block device" := by
  unfold quick_zero
  rw [h]
  simp

/-- Claim C10, witness. -/
theorem quick_zero_invalid_path_error_witness :
    ((false || false) = false) ∧
    quick_zero vdaFs "/tmp/nope" false false true [1, 2, 3] =
      .error "ValueError: not an existing file or block device" :=
  ⟨rfl, quick_zero_invalid_path_error vdaFs "/tmp/nope" false false true [1, 2, 3] rfl⟩


/-- Claim C4: for one requested offset of `zero_file_at_offsets`, a
resolved position outside `[0, size]` raises the invalid-offset error
under `strict` and is skipped with the file unchanged otherwise; a
position inside `[0, size]` is never treated as an invalid offset (any
strict failure there is the boundary-overrun message), non-strict
processing never fails at all, and the full call is the fold of this
per-offset body over the offsets in order. -/
theorem zero_file_at_offsets_invalid_offset_policy (buflen count : Nat)
    (size : Nat) (file : List Nat) (offset : Int) :
    ((resolvePos size offset < 0 ∨ (size : Int) < resolvePos size offset) →
      zeroOneOffset buflen count true size file offset = .error (m_badoff size offset) ∧
      zeroOneOffset buflen count false size file offset = .ok file) ∧
    ((0 ≤ resolvePos size offset ∧ resolvePos size offset ≤ (size : Int)) →
      ∀ strict e, zeroOneOffset buflen count strict size file offset = .error e →
        e = m_short size (buflen * count) offset) ∧
    (∃ f2, zeroOneOffset buflen count false size file offset = .ok f2) ∧
    (∀ strict offsets,
      zero_file_at_offsets file offsets buflen count strict =
        offsets.foldlM (zeroOneOffset buflen count strict file.length) file) := by
  refine ⟨?_, ?_, ?_, fun strict offsets => rfl⟩
  · intro hout
    constructor <;>
      · simp only [zeroOneOffset]
        split_ifs with h <;> first | rfl | omega | simp_all
  · rintro ⟨h0, hs⟩ strict e
    simp only [zeroOneOffset]
    split_ifs with h1 h2 h3 <;> intro he <;> first | omega | (cases he; rfl) | simp_all
  · simp only [zeroOneOffset]
    split_ifs with h1 h2 <;> first | exact ⟨file, rfl⟩ | simp_all

/-- Claim C4, witness: a 5-byte file; offset 10 resolves outside
`[0, 5]` — strict raises the invalid-offset error, non-strict leaves
the file unchanged. -/
theorem zero_file_at_offsets_invalid_offset_policy_witness :
    ((resolvePos 5 10 < 0 ∨ (5 : Int) < resolvePos 5 10) ∧
      zeroOneOffset 4 2 true 5 (List.replicate 5 7) 10 = .error (m_badoff 5 10) ∧
      zeroOneOffset 4 2 false 5 (List.replicate 5 7) 10 = .ok (List.replicate 5 7)) := by
  have h := (zero_file_at_offsets_invalid_offset_policy 4 2 5 (List.replicate 5 7) 10).1
    (by right; decide)
  exact ⟨by right; decide, h.1, h.2⟩

theorem zeroInner_full (buflen size : Nat) :
    ∀ (count pos : Nat) (file : List Nat), file.length = size →
      pos + buflen * count ≤ size →
      zeroInner buflen size count pos file =
        (writeAt file pos (List.replicate (buflen * count) 0), pos + buflen * count) := by
  intro count
  induction count with
  | zero => intro pos file hlen hb; simp [zeroInner, writeAt_nil]
  | succ c ih =>
    intro pos file hlen hb
    rw [Nat.mul_succ] at hb
    have hguard : ¬ (size < pos + buflen) := by omega
    rw [zeroInner, if_neg hguard]
    rw [ih (pos + buflen) (writeAt file pos (List.replicate buflen 0))
      (by rw [writeAt_length _ _ _ (by simp; omega)]; exact hlen) (by omega)]
    have hcomp := writeAt_writeAt file pos (List.replicate buflen 0)
      (List.replicate (buflen * c) 0) (by simp; omega)
    rw [List.length_replicate] at hcomp
    rw [hcomp, ← List.replicate_add]
    have h1 : buflen + buflen * c = buflen * (c + 1) := by ring
    have h2 : pos + buflen + buflen * c = pos + buflen * (c + 1) := by ring
    rw [h1, h2]

theorem zeroInner_inv (buflen size : Nat) :
    ∀ (count pos : Nat) (file : List Nat), file.length = size → pos ≤ size →
      (zeroInner buflen size count pos file).1.length = size ∧
      (zeroInner buflen size count pos file).2 ≤ size := by
  intro count
  induction count with
  | zero => intro pos file hlen hp; rw [zeroInner]; exact ⟨hlen, hp⟩
  | succ c ih =>
    intro pos file hlen hp
    simp only [zeroInner]
    split_ifs with hguard
    · have hw : ((List.replicate buflen (0 : Nat)).take (size - pos)).length = size - pos := by
        simp [List.length_take]; omega
      rw [hw]
      exact ih (pos + (size - pos)) _
        (by rw [writeAt_length _ _ _ (by rw [hw]; omega)]; exact hlen) (by omega)
    · exact ih (pos + buflen) _
        (by rw [writeAt_length _ _ _ (by simp; omega)]; exact hlen) (by omega)

theorem zeroOneOffset_write (buflen count size : Nat) (file : List Nat) (offset : Int)
    (h0 : 0 ≤ resolvePos size offset) (hs : resolvePos size offset ≤ (size : Int)) :
    zeroOneOffset buflen count false size file offset =
      .ok (zeroInner buflen size count (resolvePos size offset).toNat file).1 := by
  unfold zeroOneOffset
  split_ifs with h1 h2 <;> first | rfl | omega | simp_all

theorem zeroOneOffset_length (buflen count : Nat) (strict : Bool) (size : Nat)
    (file f2 : List Nat) (offset : Int) (hlen : file.length = size)
    (h : zeroOneOffset buflen count strict size file offset = .ok f2) :
    f2.length = size := by
  simp only [zeroOneOffset] at h
  split_ifs at h with h1 h2 h3 <;> cases h <;>
    first
    | exact hlen
    | exact (zeroInner_inv buflen size count _ file hlen (by omega)).1

theorem zero_file_at_offsets_length (buflen count : Nat) (strict : Bool) (size : Nat) :
    ∀ (offsets : List Int) (f f2 : List Nat), f.length = size →
      offsets.foldlM (zeroOneOffset buflen count strict size) f = .ok f2 →
      f2.length = size := by
  intro offsets
  induction offsets with
  | nil =>
    intro f f2 hl h
    rw [List.foldlM_nil] at h
    injection h with h2
    rw [← h2]
    exact hl
  | cons o os ih =>
    intro f f2 hl h
    rw [List.foldlM_cons] at h
    cases hstep : zeroOneOffset buflen count strict size f o with
    | error e => rw [hstep] at h; cases h
    | ok f1 =>
      rw [hstep] at h
      exact ih f1 f2 (zeroOneOffset_length buflen count strict size f f1 o hl hstep) h

set_option maxRecDepth 4000 in
/-- Claim C5: `quick_zero` with `partitions=False` on a regular file of
size at least 2 MiB delegates to `zero_file_at_offsets` with
`strict=False` and zeroes exactly the bytes of `[0, 1 MiB)` and
`[size - 1 MiB, size)`, leaving every byte between unchanged and the
length intact. -/
theorem quick_zero_regular_file_effect (fs : Fs) (path : String) (file : List Nat)
    (h : 2 * 1048576 ≤ file.length) :
    quick_zero fs path false true false file =
      zero_file_at_offsets file [0, -1048576] 1024 1024 false ∧
    ∃ f2, quick_zero fs path false true false file = .ok f2 ∧
      f2.length = file.length ∧
      ∀ i : Nat, i < file.length →
        f2[i]? = if i < 1048576 ∨ file.length - 1048576 ≤ i then some 0 else file[i]? := by
  refine ⟨rfl, ?_⟩
  have hM : (1024 : Nat) * 1024 = 1048576 := by norm_num
  have hZlen : (List.replicate 1048576 (0 : Nat)).length = 1048576 := List.length_replicate _ _
  have hlen1 : (writeAt file 0 (List.replicate 1048576 0)).length = file.length :=
    writeAt_length _ _ _ (by rw [hZlen]; omega)
  have hr0 : resolvePos file.length 0 = 0 := by simp [resolvePos]
  have hstep1 : zeroOneOffset 1024 1024 false file.length file 0 =
      .ok (writeAt file 0 (List.replicate 1048576 0)) := by
    rw [zeroOneOffset_write 1024 1024 file.length file 0 (by rw [hr0]) (by rw [hr0]; exact Int.ofNat_nonneg _)]
    rw [show (resolvePos file.length 0).toNat = 0 by rw [hr0]; rfl]
    rw [zeroInner_full 1024 file.length 1024 0 file rfl (by omega)]
  have hr2 : resolvePos file.length (-1048576) = (file.length : Int) - 1048576 := by
    simp [resolvePos]
    omega
  have hstep2 : zeroOneOffset 1024 1024 false file.length
      (writeAt file 0 (List.replicate 1048576 0)) (-1048576) =
      .ok (writeAt (writeAt file 0 (List.replicate 1048576 0))
        (file.length - 1048576) (List.replicate 1048576 0)) := by
    rw [zeroOneOffset_write 1024 1024 file.length _ (-1048576) (by rw [hr2]; omega)
      (by rw [hr2]; omega)]
    rw [show (resolvePos file.length (-1048576)).toNat = file.length - 1048576 by
      rw [hr2]; omega]
    rw [zeroInner_full 1024 file.length 1024 (file.length - 1048576) _ hlen1 (by omega)]
  have hfold : zero_file_at_offsets file [0, -1048576] 1024 1024 false =
      .ok (writeAt (writeAt file 0 (List.replicate 1048576 0))
        (file.length - 1048576) (List.replicate 1048576 0)) := by
    unfold zero_file_at_offsets
    rw [List.foldlM_cons, hstep1]
    show [(-1048576 : Int)].foldlM (zeroOneOffset 1024 1024 false file.length)
      (writeAt file 0 (List.replicate 1048576 0)) = _
    rw [List.foldlM_cons, hstep2]
    rfl
  have hlen2 : (writeAt (writeAt file 0 (List.replicate 1048576 0))
      (file.length - 1048576) (List.replicate 1048576 0)).length = file.length := by
    rw [writeAt_length _ _ _ (by rw [hlen1, hZlen]; omega), hlen1]
  refine ⟨_, hfold, hlen2, ?_⟩
  intro i hi
  rw [writeAt_getElem? _ _ _ (by rw [hlen1, hZlen]; omega) i]
  rw [writeAt_getElem? _ _ _ (by rw [hZlen]; omega) i]
  simp only [hZlen, List.getElem?_replicate, Nat.zero_add]
  split_ifs <;> first | rfl | omega

/-- Claim C5, witness: a file of exactly 2 MiB. -/
theorem quick_zero_regular_file_effect_witness :
    (2 * 1048576 ≤ (List.replicate (2 * 1048576) (7 : Nat)).length) ∧
    (quick_zero vdaFs "d" false true false (List.replicate (2 * 1048576) 7) =
      zero_file_at_offsets (List.replicate (2 * 1048576) 7) [0, -1048576] 1024 1024 false) ∧
    (∃ f2, quick_zero vdaFs "d" false true false (List.replicate (2 * 1048576) 7) = .ok f2 ∧
      f2.length = (List.replicate (2 * 1048576) (7 : Nat)).length ∧
      ∀ i : Nat, i < (List.replicate (2 * 1048576) (7 : Nat)).length →
        f2[i]? = if i < 1048576 ∨ (List.replicate (2 * 1048576) (7 : Nat)).length - 1048576 ≤ i
          then some 0 else (List.replicate (2 * 1048576) (7 : Nat))[i]?) := by
  have hlen : 2 * 1048576 ≤ (List.replicate (2 * 1048576) (7 : Nat)).length := by
    rw [List.length_replicate]
  have hmain := quick_zero_regular_file_effect vdaFs "d" (List.replicate (2 * 1048576) 7) hlen
  exact ⟨hlen, hmain.1, hmain.2⟩

theorem wipeStep_ok_cases (buflen size pos : Nat) (pbuf file : List Nat)
    (fpd : List Nat × Nat × Bool) (h : wipeStep buflen size pos pbuf file = .ok fpd) :
    ¬(pbuf.length ≠ buflen ∧ pbuf.length + pos < size) ∧
    ((size ≤ pos + buflen ∧
        fpd = (writeAt file pos (pbuf.take (size - pos)),
          pos + (pbuf.take (size - pos)).length, true)) ∨
     (¬ (size ≤ pos + buflen) ∧
        fpd = (writeAt file pos pbuf, pos + pbuf.length, false))) := by
  unfold wipeStep at h
  split_ifs at h with h1 h2
  all_goals cases h
  · exact ⟨h1, Or.inl ⟨h2, rfl⟩⟩
  · exact ⟨h1, Or.inr ⟨h2, rfl⟩⟩

theorem wipeLoop_ok_length (reader : Nat → List Nat) (buflen size : Nat)
    (hr : ∀ j, (reader j).length ≤ buflen) :
    ∀ (fuel k pos : Nat) (file f2 : List Nat), file.length = size → pos ≤ size →
      wipeLoop reader buflen size fuel k pos file = .ok f2 → f2.length = size := by
  intro fuel
  induction fuel with
  | zero => intro k pos file f2 hlen hpos h; cases h
  | succ fuel ih =>
    intro k pos file f2 hlen hpos h
    rw [wipeLoop] at h
    cases hstep : wipeStep buflen size pos (reader k) file with
    | error e => rw [hstep] at h; cases h
    | ok fpd =>
      rw [hstep] at h
      rcases wipeStep_ok_cases buflen size pos (reader k) file fpd hstep with ⟨hguard, hcase⟩
      rcases hcase with ⟨hfin, hfpd⟩ | ⟨hfin, hfpd⟩
      · rw [hfpd] at h
        simp only [if_pos] at h
        injection h with h2
        rw [← h2]
        rw [writeAt_length]
        · exact hlen
        · have : ((reader k).take (size - pos)).length ≤ size - pos := by
            simp [List.length_take]
          omega
      · rw [hfpd] at h
        simp only [Bool.false_eq_true, if_false] at h
        have hlb : pos + (reader k).length ≤ size := by
          have := hr k
          omega
        exact ih (k + 1) (pos + (reader k).length) (writeAt file pos (reader k)) f2
          (by rw [writeAt_length _ _ _ (by omega)]; exact hlen) (by omega) h

theorem wipeLoop_error_iff (reader : Nat → List Nat) (buflen size : Nat)
    (hb : 1 ≤ buflen) (hr : ∀ j, (reader j).length ≤ buflen) :
    ∀ (fuel k pos : Nat) (file : List Nat), file.length = size → pos ≤ size →
      size - pos < fuel →
      ((∃ e, wipeLoop reader buflen size fuel k pos file = .error e) ↔
        ∃ m, (∀ j, j < m → (reader (k + j)).length = buflen) ∧
          (reader (k + m)).length ≠ buflen ∧
          (reader (k + m)).length + (pos + m * buflen) < size) := by
  intro fuel
  induction fuel with
  | zero => intro k pos file hlen hpos hfuel; omega
  | succ fuel ih =>
    intro k pos file hlen hpos hfuel
    by_cases hc : (reader k).length ≠ buflen ∧ (reader k).length + pos < size
    · have hloop : wipeLoop reader buflen size (fuel + 1) k pos file =
          .error (shortReadMsg (reader k).length buflen pos) := by
        rw [wipeLoop]
        rw [show wipeStep buflen size pos (reader k) file =
            .error (shortReadMsg (reader k).length buflen pos) by
          unfold wipeStep
          rw [if_pos hc]]
      constructor
      · intro _
        refine ⟨0, fun j hj => absurd hj (Nat.not_lt_zero j), ?_, ?_⟩
        · simpa using hc.1
        · simpa using hc.2
      · intro _
        exact ⟨_, hloop⟩
    · by_cases hf : size ≤ pos + buflen
      · have hloop : wipeLoop reader buflen size (fuel + 1) k pos file =
            .ok (writeAt file pos ((reader k).take (size - pos))) := by
          rw [wipeLoop]
          rw [show wipeStep buflen size pos (reader k) file =
              .ok (writeAt file pos ((reader k).take (size - pos)),
                pos + ((reader k).take (size - pos)).length, true) by
            unfold wipeStep
            rw [if_neg hc, if_pos hf]]
          rfl
        constructor
        · rintro ⟨e, he⟩
          rw [hloop] at he
          cases he
        · rintro ⟨m, hpre, hne, hlt⟩
          exfalso
          cases m with
          | zero =>
            refine hc ⟨by simpa using hne, ?_⟩
            have := hlt
            simp only [Nat.add_zero, Nat.zero_mul] at this
            omega
          | succ m =>
            have h1 : buflen ≤ (m + 1) * buflen := Nat.le_mul_of_pos_left buflen (Nat.succ_pos m)
            omega
      · have hlenk : (reader k).length = buflen := by
          have := hr k
          by_contra hne
          exact hc ⟨hne, by omega⟩
        have hstep : wipeStep buflen size pos (reader k) file =
            .ok (writeAt file pos (reader k), pos + (reader k).length, false) := by
          unfold wipeStep
          rw [if_neg hc, if_neg hf]
        have hwlen : (writeAt file pos (reader k)).length = size := by
          rw [writeAt_length _ _ _ (by rw [hlenk, hlen]; omega)]
          exact hlen
        have hnext : wipeLoop reader buflen size (fuel + 1) k pos file =
            wipeLoop reader buflen size fuel (k + 1) (pos + buflen) (writeAt file pos (reader k)) := by
          rw [wipeLoop, hstep]
          simp only [Bool.false_eq_true, if_false]
          rw [hlenk]
        rw [hnext]
        rw [ih (k + 1) (pos + buflen) _ hwlen (by omega) (by omega)]
        constructor
        · rintro ⟨m, hpre, hne, hlt⟩
          refine ⟨m + 1, ?_, ?_, ?_⟩
          · intro j hj
            cases j with
            | zero => simpa using hlenk
            | succ j =>
              have := hpre j (by omega)
              rw [show k + (j + 1) = k + 1 + j by omega]
              exact this
          · rw [show k + (m + 1) = k + 1 + m by omega]
            exact hne
          · rw [show k + (m + 1) = k + 1 + m by omega]
            have harith : pos + (m + 1) * buflen = pos + buflen + m * buflen := by ring
            rw [harith]
            exact hlt
        · rintro ⟨m, hpre, hne, hlt⟩
          cases m with
          | zero =>
            exfalso
            simp only [Nat.add_zero] at hne
            exact hne hlenk
          | succ m =>
            refine ⟨m, ?_, ?_, ?_⟩
            · intro j hj
              have := hpre (j + 1) (by omega)
              rw [show k + (j + 1) = k + 1 + j by omega] at this
              exact this
            · rw [show k + 1 + m = k + (m + 1) by omega]
              exact hne
            · rw [show k + 1 + m = k + (m + 1) by omega]
              have harith : pos + buflen + m * buflen = pos + (m + 1) * buflen := by ring
              rw [harith]
              exact hlt

/-- Claim C3: `wipe_file` raises the short-read failure exactly when
some reader call `m` returns a buffer violating
`len(pbuf) != buflen and len(pbuf) + pos < size` at its write position
`pos = m * buflen` (all earlier calls returned full blocks, so this is
the current position); in every other case each block is written
without error, truncated to `size - pos` exactly when it is the final
block (`pos + buflen >= size`). -/
theorem wipe_file_short_read_iff (reader : Nat → List Nat) (buflen : Nat)
    (file : List Nat) (hb : 1 ≤ buflen) (hr : ∀ j, (reader j).length ≤ buflen) :
    ((∃ e, wipe_file reader buflen file = .error e) ↔
      ∃ m, (∀ j, j < m → (reader j).length = buflen) ∧
        (reader m).length ≠ buflen ∧
        (reader m).length + m * buflen < file.length) ∧
    (∀ (pos : Nat) (pbuf f : List Nat),
      ¬(pbuf.length ≠ buflen ∧ pbuf.length + pos < f.length) →
      wipeStep buflen f.length pos pbuf f =
        if f.length ≤ pos + buflen then
          .ok (writeAt f pos (pbuf.take (f.length - pos)),
            pos + (pbuf.take (f.length - pos)).length, true)
        else
          .ok (writeAt f pos pbuf, pos + pbuf.length, false)) := by
  constructor
  · have hmain := wipeLoop_error_iff reader buflen file.length hb hr
      (file.length + 1) 0 0 file rfl (by omega) (by omega)
    unfold wipe_file
    simpa using hmain
  · intro pos pbuf f hguard
    unfold wipeStep
    rw [if_neg hguard]

/-- Claim C3, witness: with block size 2 on a 5-byte file, a reader
returning a 1-byte buffer on its first call (position 0, remaining
distance 5) trips the short-read failure. -/
theorem wipe_file_short_read_iff_witness :
    (1 ≤ 2) ∧ (∀ j : Nat, ((fun _ => ([0] : List Nat)) j).length ≤ 2) ∧
    (∃ e, wipe_file (fun _ => [0]) 2 (List.replicate 5 7) = .error e) := by
  refine ⟨by omega, ?_, ?_⟩
  · intro j
    show ([0] : List Nat).length ≤ 2
    decide
  · refine (wipe_file_short_read_iff (fun _ => [0]) 2 (List.replicate 5 7) (by omega)
      (fun j => by show ([0] : List Nat).length ≤ 2; decide)).1.mpr
      ⟨0, fun j hj => absurd hj (Nat.not_lt_zero j), ?_, ?_⟩
    · show ([0] : List Nat).length ≠ 2
      decide
    · show ([0] : List Nat).length + (0 + 0 * 2) < (List.replicate 5 (7 : Nat)).length
      decide

/-- Claim C9: on every non-failing path, neither `wipe_file` (for any
reader honouring the read contract `len(pbuf) <= buflen`) nor
`zero_file_at_offsets` changes the length of the target: every write is
clipped to end at the end-of-file position measured at open, so no byte
at or beyond it is ever written. -/
theorem wipe_engine_preserves_size (reader : Nat → List Nat) (buflen : Nat)
    (file : List Nat) (hr : ∀ j, (reader j).length ≤ buflen) :
    (∀ f2, wipe_file reader buflen file = .ok f2 → f2.length = file.length) ∧
    (∀ (offsets : List Int) (blen cnt : Nat) (strict : Bool) (f2 : List Nat),
      zero_file_at_offsets file offsets blen cnt strict = .ok f2 →
      f2.length = file.length) := by
  constructor
  · intro f2 h
    exact wipeLoop_ok_length reader buflen file.length hr
      (file.length + 1) 0 0 file f2 rfl (by omega) h
  · intro offsets blen cnt strict f2 h
    exact zero_file_at_offsets_length blen cnt strict file.length offsets file f2 rfl h

/-- Claim C9, witness: the default zero reader with 4-byte blocks on a
10-byte file, and a two-offset zeroing pass on the same file, both
return a file of the original length. -/
theorem wipe_engine_preserves_size_witness :
    (∀ j : Nat, (zeroReader 4 j).length ≤ 4) ∧
    (∀ f2, wipe_file (zeroReader 4) 4 (List.replicate 10 7) = .ok f2 →
      f2.length = (List.replicate 10 (7 : Nat)).length) ∧
    (∀ (offsets : List Int) (blen cnt : Nat) (strict : Bool) (f2 : List Nat),
      zero_file_at_offsets (List.replicate 10 7) offsets blen cnt strict = .ok f2 →
      f2.length = (List.replicate 10 (7 : Nat)).length) := by
  have hr : ∀ j : Nat, (zeroReader 4 j).length ≤ 4 := fun j => by simp [zeroReader]
  have hmain := wipe_engine_preserves_size (zeroReader 4) 4 (List.replicate 10 7) hr
  exact ⟨hr, hmain.1, hmain.2⟩

theorem lookup_cons_str {β : Type} (a k : String) (v : β) (l : List (String × β)) :
    List.lookup a ((k, v) :: l) = if a = k then some v else List.lookup a l := by
  rw [List.lookup_cons]
  by_cases h : a = k
  · have hb : (a == k) = true := by simpa using h
    rw [hb, if_pos h]
  · have hb : (a == k) = false := by simpa using h
    rw [hb, if_neg h]

theorem lookup_map_overwrite_ne {β : Type} (k k2 : String) (v : β) (hne : k2 ≠ k) :
    ∀ d : List (String × β),
      List.lookup k2 (d.map (fun q => if q.1 == k then (k, v) else q)) =
        List.lookup k2 d := by
  intro d
  induction d with
  | nil => simp
  | cons q d ih =>
    obtain ⟨qk, qv⟩ := q
    rw [List.map_cons]
    by_cases hq : qk = k
    · rw [show (if ((qk, qv).1 == k) = true then (k, v) else (qk, qv)) = (k, v) by
        simp [hq]]
      rw [lookup_cons_str, lookup_cons_str, if_neg hne, if_neg (by rw [hq]; exact hne)]
      exact ih
    · rw [show (if ((qk, qv).1 == k) = true then (k, v) else (qk, qv)) = (qk, qv) by
        simp [hq]]
      rw [lookup_cons_str, lookup_cons_str]
      by_cases h2 : k2 = qk
      · rw [if_pos h2, if_pos h2]
      · rw [if_neg h2, if_neg h2]
        exact ih

theorem lookup_map_overwrite_self {β : Type} (k : String) (v : β) :
    ∀ d : List (String × β), d.any (fun q => q.1 == k) = true →
      List.lookup k (d.map (fun q => if q.1 == k then (k, v) else q)) = some v := by
  intro d
  induction d with
  | nil => simp
  | cons q d ih =>
    obtain ⟨qk, qv⟩ := q
    intro hany
    rw [List.map_cons]
    by_cases hq : qk = k
    · rw [show (if ((qk, qv).1 == k) = true then (k, v) else (qk, qv)) = (k, v) by
        simp [hq]]
      rw [lookup_cons_str, if_pos rfl]
    · rw [show (if ((qk, qv).1 == k) = true then (k, v) else (qk, qv)) = (qk, qv) by
        simp [hq]]
      rw [lookup_cons_str, if_neg (fun h => hq h.symm)]
      apply ih
      simp only [List.any_cons, Bool.or_eq_true] at hany
      rcases hany with h | h
      · exact absurd (by simpa using h) hq
      · exact h

theorem lookup_none_of_not_any {β : Type} (k : String) :
    ∀ d : List (String × β), ¬ (d.any (fun q => q.1 == k) = true) →
      List.lookup k d = none := by
  intro d
  induction d with
  | nil => simp
  | cons q d ih =>
    obtain ⟨qk, qv⟩ := q
    intro hany
    simp only [List.any_cons, Bool.or_eq_true, not_or] at hany
    rw [lookup_cons_str, if_neg (fun h => hany.1 (by simpa using h.symm))]
    exact ih hany.2

theorem lookup_append_str {β : Type} (k : String) :
    ∀ d e : List (String × β),
      List.lookup k (d ++ e) =
        (match List.lookup k d with
         | some v => some v
         | none => List.lookup k e) := by
  intro d e
  induction d with
  | nil => simp
  | cons q d ih =>
    obtain ⟨qk, qv⟩ := q
    rw [List.cons_append, lookup_cons_str, lookup_cons_str]
    by_cases h : k = qk
    · rw [if_pos h, if_pos h]
    · rw [if_neg h, if_neg h]
      exact ih

theorem lookup_dictInsert_self {β : Type} (d : List (String × β)) (k : String) (v : β) :
    List.lookup k (dictInsert d k v) = some v := by
  unfold dictInsert
  split_ifs with hany
  · exact lookup_map_overwrite_self k v d hany
  · rw [lookup_append_str, lookup_none_of_not_any k d hany, lookup_cons_str, if_pos rfl]

theorem lookup_dictInsert_ne {β : Type} (d : List (String × β)) (k k2 : String) (v : β)
    (h : k2 ≠ k) : List.lookup k2 (dictInsert d k v) = List.lookup k2 d := by
  unfold dictInsert
  split_ifs with hany
  · exact lookup_map_overwrite_ne k k2 v h d
  · rw [lookup_append_str, lookup_cons_str, if_neg h]
    cases hl : List.lookup k2 d <;> simp

theorem mem_dictInsert {β : Type} (d : List (String × β)) (k : String) (v : β)
    (p : String × β) (h : p ∈ dictInsert d k v) : p ∈ d ∨ p = (k, v) := by
  unfold dictInsert at h
  split_ifs at h with hany
  · rw [List.mem_map] at h
    rcases h with ⟨q, hq, hfq⟩
    by_cases hqk : q.1 = k
    · right
      rw [← hfq]
      simp [hqk]
    · left
      rw [← hfq]
      simpa [hqk] using hq
  · rw [List.mem_append] at h
    rcases h with h | h
    · exact Or.inl h
    · right
      simpa using h

theorem exceptBind_ok {ε α β : Type} (x : Except ε α) (f : α → Except ε β) (b : β)
    (h : (x >>= f) = .ok b) : ∃ a, x = .ok a ∧ f a = .ok b := by
  cases x with
  | error e => cases h
  | ok a => exact ⟨a, rfl, h⟩

theorem parse_pairs_line_P (split : String → List String) (line k : String)
    (row : List (String × String)) (h : parse_pairs_line split line = .ok (k, row)) :
    List.lookup "KNAME" row = some k ∧
    List.lookup "device_path" row = some (get_dev_name_entry k).2 := by
  unfold parse_pairs_line at h
  obtain ⟨cur, hc, h2⟩ := exceptBind_ok _ _ _ h
  cases hk : List.lookup "KNAME" cur with
  | none => rw [hk] at h2; cases h2
  | some kname =>
    rw [hk] at h2
    cases h2
    constructor
    · rw [lookup_dictInsert_ne _ _ _ _ (by decide)]
      exact hk
    · exact lookup_dictInsert_self _ _ _

theorem pairs_to_dict_P (split : String → List String) :
    ∀ (lines : List String) (ret table : List (String × List (String × String))),
      (∀ p ∈ ret, List.lookup "KNAME" p.2 = some p.1 ∧
        List.lookup "device_path" p.2 = some (get_dev_name_entry p.1).2) →
      (lines.foldlM (fun ret line => do
        let kr ← parse_pairs_line split line
        pure (dictInsert ret kr.1 kr.2)) ret) = .ok table →
      ∀ p ∈ table, List.lookup "KNAME" p.2 = some p.1 ∧
        List.lookup "device_path" p.2 = some (get_dev_name_entry p.1).2 := by
  intro lines
  induction lines with
  | nil =>
    intro ret table hinv h
    rw [List.foldlM_nil] at h
    cases h
    exact hinv
  | cons line ls ih =>
    intro ret table hinv h
    rw [List.foldlM_cons] at h
    cases hp : parse_pairs_line split line with
    | error e => rw [hp] at h; cases h
    | ok kr =>
      rw [hp] at h
      refine ih (dictInsert ret kr.1 kr.2) table ?_ h
      intro p hmem
      rcases mem_dictInsert ret kr.1 kr.2 p hmem with hold | hnew
      · exact hinv p hold
      · rw [hnew]
        exact parse_pairs_line_P split line kr.1 kr.2 (by simpa using hp)

/-- Claim C7 (amended): every entry of the parsed lsblk table is keyed
by its row's `KNAME` value, and the derived `device_path` equals
`get_dev_name_entry(KNAME)` — that is, `"/dev/"` plus the part of
`KNAME` after its last `/dev/` occurrence, which is `"/dev/" + KNAME`
whenever `KNAME` does not contain `/dev/` as a substring (always the
case for real kernel names). -/
theorem lsblock_pairs_kname_keying (split : String → List String) (lines : String)
    (table : List (String × List (String × String)))
    (h : _lsblock_pairs_to_dict split lines = .ok table) :
    ∀ k row, (k, row) ∈ table →
      List.lookup "KNAME" row = some k ∧
      List.lookup "device_path" row = some (get_dev_name_entry k).2 ∧
      (pySplitOn k "/dev/" = [k] → List.lookup "device_path" row = some ("/dev/" ++ k)) := by
  intro k row hmem
  have hP := pairs_to_dict_P split (pySplitlines lines) [] table
    (fun p hp => absurd hp (List.not_mem_nil p)) h ⟨k, row⟩ hmem
  refine ⟨hP.1, hP.2, ?_⟩
  intro hsplit
  rw [hP.2]
  unfold get_dev_name_entry
  rw [hsplit]
  rfl

/-- Claim C7, witness: an ordinary two-token line keyed by `KNAME=sda`
whose derived path is `/dev/sda`. -/
theorem lsblock_pairs_kname_keying_witness :
    (_lsblock_pairs_to_dict spaceSplit "KNAME=sda SIZE=100" =
      .ok [("sda", [("KNAME", "sda"), ("SIZE", "100"), ("device_path", "/dev/sda")])]) ∧
    List.lookup "device_path" [("KNAME", "sda"), ("SIZE", "100"), ("device_path", "/dev/sda")] =
      some ("/dev/" ++ "sda") := by
  have hok : _lsblock_pairs_to_dict spaceSplit "KNAME=sda SIZE=100" =
      .ok [("sda", [("KNAME", "sda"), ("SIZE", "100"), ("device_path", "/dev/sda")])] := by
    rfl
  refine ⟨hok, ?_⟩
  exact (lsblock_pairs_kname_keying spaceSplit "KNAME=sda SIZE=100" _ hok "sda"
    [("KNAME", "sda"), ("SIZE", "100"), ("device_path", "/dev/sda")]
    (by simp)).2.2 (by rfl)

/-- Claim C7, counterexample: a line whose `KNAME` value itself
contains `/dev/` — the parsed `device_path` is `/dev/sda`, not
`"/dev/" + KNAME` (`/dev//dev/sda`), because `get_dev_name_entry`
splits on `/dev/` and keeps only the last part. -/
theorem lsblock_pairs_kname_devpath_counterexample :
    _lsblock_pairs_to_dict spaceSplit "KNAME=/dev/sda" =
      .ok [("/dev/sda", [("KNAME", "/dev/sda"), ("device_path", "/dev/sda")])] ∧
    ("/dev/sda" : String) ≠ "/dev/" ++ "/dev/sda" := by
  constructor
  · rfl
  · decide

/-- Claim C8, counterexample: `_lsblock` passes a `/`-containing
argument to the tool verbatim — the last element of the invoked argv
for `["a/b"]` is still `a/b`, with its `/` intact and no escape
character introduced, so no escaping of `/` happens before invocation
(the source's transformation runs in the opposite direction, `!` to
`/`). -/
theorem lsblock_slash_not_escaped :
    (lsblock_invocation ["a/b"]).getLast? = some "a/b" ∧
    ("a/b" : String).data.contains '/' = true ∧
    ("a/b" : String).data.contains '!' = false := by
  refine ⟨?_, by decide, by decide⟩
  rfl

/-- Claim C8 (amended): `_lsblock` rewrites every `!` in its arguments
to `/` before invoking the tool and rewrites every `!` in the tool's
output to `/` before parsing; an argument without `!` — in particular
one containing `/` — is passed through unchanged. -/
theorem lsblock_arg_output_bang_rewrite (split : String → List String)
    (tool : List String → String) (args : List String) :
    (lsblock_invocation args =
      lsblock_basecmd ++ args.map (fun x => pyReplaceChar x '!' '/')) ∧
    (_lsblock split tool args =
      _lsblock_pairs_to_dict split (pyReplaceChar (tool (lsblock_invocation args)) '!' '/')) ∧
    (∀ s : String, ('!' ∉ s.data) → pyReplaceChar s '!' '/' = s) := by
  refine ⟨rfl, rfl, ?_⟩
  intro s hs
  unfold pyReplaceChar
  have hmap : s.data.map (fun c => if c == '!' then '/' else c) = s.data := by
    have hgen : ∀ l : List Char, ('!' ∉ l) →
        l.map (fun c => if c == '!' then '/' else c) = l := by
      intro l
      induction l with
      | nil => intro _; rfl
      | cons c l ih =>
        intro hc
        rw [List.mem_cons, not_or] at hc
        rw [List.map_cons, ih hc.2]
        have : (c == '!') = false := by
          simpa using fun he : c = '!' => hc.1 he.symm
        rw [this]
        simp
    exact hgen s.data hs
  rw [hmap]

/-- Claim C8, witness: a slash-containing, bang-free argument is left
unchanged by the argument rewrite. -/
theorem lsblock_arg_output_bang_rewrite_witness :
    ('!' ∉ ("a/b" : String).data) ∧ pyReplaceChar "a/b" '!' '/' = "a/b" := by
  have h : ('!' ∉ ("a/b" : String).data) := by decide
  exact ⟨h, (lsblock_arg_output_bang_rewrite spaceSplit (fun _ => "") []).2.2 "a/b" h⟩
